import Mathlib

/-!
Verification of the NIfTI time-series extraction engine.

The development shallowly embeds the post-extraction reconciliation logic of
`extract_timeseries.py` (canonical label computation, zero-padding of missing
regions, column reindexing, CSV emission) as pure functions over lists, and
embeds the file-system effects of `align_atlas_to_target`, `extract_timeseries`
and the `batch_extract.py` driver loop as explicit state passing over a small
file-system state.
-/

namespace NiftiTS

/-- A data column of the region-signal table: one rational value per time point.
Real-valued voxel means are modelled as rationals. -/
abbrev Col := List ℚ

/-- First-match association-list lookup, modelling access to a pandas
`DataFrame` column by label (`df[label]`) and the membership test
`label in df.columns`. -/
def lookupCol {β : Type} : List (Int × β) → Int → Option β
  | [], _ => none
  | (k, c) :: rest, l => if l = k then some c else lookupCol rest l

/-- Index of the first occurrence of a label in a label list (the column
position a label selects in a `DataFrame`). -/
def idxOf : List Int → Int → Nat
  | [], _ => 0
  | k :: rest, l => if l = k then 0 else idxOf rest l + 1

/-- Drop the leading background label — `if labels[0] == 0: labels = labels[1:]` —
label, as done both for `masker.labels_` (line 161) and for the sorted unique
values of the original atlas (line 170) in `extract_timeseries.py`. -/
def dropBgFirst : List Int → List Int
  | [] => []
  | l :: rest => if l = 0 then rest else l :: rest

/-- Model of `sorted(list(np.unique(original_atlas_data.astype(int))))` (line 169 of
`extract_timeseries.py`): the distinct voxel values, sorted ascending. -/
def sortedUnique (voxels : List Int) : List Int :=
  voxels.dedup.insertionSort (· ≤ ·)

/-- The `all_labels` list of `extract_timeseries` (lines 169–171): the sorted distinct
voxel values of the original, unaligned atlas, with a leading 0 dropped —
the canonical region set. -/
def canonicalLabels (voxels : List Int) : List Int :=
  dropBgFirst (sortedUnique voxels)

/-- Model of `pd.DataFrame(time_series, columns=labels)`: column `i` is keyed by
`labels[i]` and holds the `i`-th entry of every time-series row.  The index
accumulator `i` tracks the column position. -/
def mkFrameAux (ts : List Col) : List Int → Nat → List (Int × Col)
  | [], _ => []
  | l :: ls, i => (l, ts.map (fun r => r.getD i 0)) :: mkFrameAux ts ls (i + 1)

/-- Model of `pd.DataFrame(time_series, columns=labels)` starting at column 0. -/
def mkFrame (ts : List Col) (labels : List Int) : List (Int × Col) :=
  mkFrameAux ts labels 0

/-- The loop `for label in all_labels: if label not in df.columns: df[label] = 0.0`
(lines 185–188): append an all-zero column of length `n` (the row count) for
every canonical label absent from the frame, in canonical-list order. -/
def zeroFill (df : List (Int × Col)) (n : Nat) : List Int → List (Int × Col)
  | [] => df
  | l :: ls =>
    if (lookupCol df l).isSome = true then zeroFill df n ls
    else zeroFill (df ++ [(l, List.replicate n 0)]) n ls

/-- Model of `df.reindex(columns=all_labels)` (line 190): select the columns in the
given label order; a label without a column yields `none` (a NaN column). -/
def reindexCols (df : List (Int × Col)) (labels : List Int) :
    List (Int × Option Col) :=
  labels.map (fun l => (l, lookupCol df l))

/-- The reconciliation step of the padding branch: zero-fill missing canonical
labels, then reindex to canonical order (lines 185–190). -/
def reconcileStep (df : List (Int × Col)) (n : Nat) (allLabels : List Int) :
    List (Int × Option Col) :=
  reindexCols (zeroFill df n allLabels) allLabels

/-- The guard `if len(current_labels) == time_series.shape[1] + 1: current_labels =
current_labels[1:]` (lines 180–181 and 193–194). -/
def trimLabels (labels : List Int) (ncols : Nat) : List Int :=
  if labels.length = ncols + 1 then labels.tail else labels

/-- The region-reconciliation portion of `extract_timeseries`
(lines 157–195): given the extracted time series (`ts`, one row per time
point, `ncols = time_series.shape[1]` columns), the labels reported by the
masker, and the voxel values of the original atlas, produce the emitted
frame.  If fewer regions were extracted than the canonical set holds, the
frame is zero-padded and reindexed; otherwise the frame is emitted as built. -/
def reconcileOutput (ts : List Col) (ncols : Nat) (extractedLabels : List Int)
    (origVoxels : List Int) : List (Int × Option Col) :=
  let extracted := dropBgFirst extractedLabels
  let allLabels := canonicalLabels origVoxels
  if ncols < allLabels.length then
    reconcileStep (mkFrame ts (trimLabels extracted ncols)) ts.length allLabels
  else
    (mkFrame ts (trimLabels extracted ncols)).map (fun p => (p.1, some p.2))

/-- The header row written by `df.to_csv(output_csv, index=False)`:
the column labels, in frame order; no row-index column. -/
def csvHeader (df : List (Int × Option Col)) : List Int :=
  df.map Prod.fst

/-- The data rows written by `df.to_csv(output_csv, index=False)`: for each
time index `t` (in acquisition order) one row holding the `t`-th entry of
every column; a NaN column (`none`) or an out-of-range index yields an empty
cell (`none`). -/
def csvDataRows (df : List (Int × Option Col)) (n : Nat) :
    List (List (Option ℚ)) :=
  (List.range n).map (fun t => df.map (fun p => p.2.bind (fun c => c.get? t)))

/-! ### Lemmas about the frame operations -/

theorem lookupCol_append {β : Type} (df df₂ : List (Int × β)) (l : Int) :
    lookupCol (df ++ df₂) l =
      match lookupCol df l with
      | some c => some c
      | none => lookupCol df₂ l := by
  induction df with
  | nil => simp [lookupCol]
  | cons p rest ih =>
    obtain ⟨k, c⟩ := p
    by_cases h : l = k <;> simp [lookupCol, h, ih]

theorem lookupCol_isSome_iff {β : Type} (df : List (Int × β)) (l : Int) :
    (lookupCol df l).isSome = true ↔ l ∈ df.map Prod.fst := by
  induction df with
  | nil => simp [lookupCol]
  | cons p rest ih =>
    obtain ⟨k, c⟩ := p
    by_cases h : l = k <;> simp [lookupCol, h, ih]

theorem mkFrameAux_keys (ts : List Col) (ls : List Int) (i : Nat) :
    (mkFrameAux ts ls i).map Prod.fst = ls := by
  induction ls generalizing i with
  | nil => simp [mkFrameAux]
  | cons l ls ih => simp [mkFrameAux, ih]

theorem mkFrameAux_length (ts : List Col) (ls : List Int) (i : Nat) :
    (mkFrameAux ts ls i).length = ls.length := by
  induction ls generalizing i with
  | nil => simp [mkFrameAux]
  | cons l ls ih => simp [mkFrameAux, ih]

theorem lookupCol_mkFrameAux_mem (ts : List Col) (ls : List Int) (i : Nat)
    (l : Int) (hl : l ∈ ls) :
    lookupCol (mkFrameAux ts ls i) l =
      some (ts.map (fun r => r.getD (i + idxOf ls l) 0)) := by
  induction ls generalizing i with
  | nil => cases hl
  | cons k ls ih =>
    by_cases h : l = k
    · simp [mkFrameAux, lookupCol, idxOf, h]
    · have hl' : l ∈ ls := by
        rcases List.mem_cons.mp hl with h' | h'
        · exact absurd h' h
        · exact h'
      have := ih (i + 1) hl'
      simp only [mkFrameAux, lookupCol, if_neg h, idxOf, this]
      have : i + 1 + idxOf ls l = i + (idxOf ls l + 1) := by omega
      rw [this]

theorem lookupCol_mkFrameAux_not_mem (ts : List Col) (ls : List Int) (i : Nat)
    (l : Int) (hl : l ∉ ls) :
    lookupCol (mkFrameAux ts ls i) l = none := by
  induction ls generalizing i with
  | nil => simp [mkFrameAux, lookupCol]
  | cons k ls ih =>
    have hk : l ≠ k := fun h => hl (h ▸ List.mem_cons_self k ls)
    have hl' : l ∉ ls := fun h => hl (List.mem_cons_of_mem k h)
    simp [mkFrameAux, lookupCol, hk, ih _ hl']

theorem lookupCol_mkFrame_mem (ts : List Col) (ls : List Int) (l : Int)
    (hl : l ∈ ls) :
    lookupCol (mkFrame ts ls) l =
      some (ts.map (fun r => r.getD (idxOf ls l) 0)) := by
  have := lookupCol_mkFrameAux_mem ts ls 0 l hl
  simpa [mkFrame] using this

theorem lookupCol_mkFrame_col_length (ts : List Col) (ls : List Int) (l : Int)
    (c : Col) (h : lookupCol (mkFrame ts ls) l = some c) :
    c.length = ts.length := by
  by_cases hl : l ∈ ls
  · rw [lookupCol_mkFrame_mem ts ls l hl] at h
    obtain rfl := Option.some.injEq _ _ ▸ h
    simp_all
  · rw [mkFrame, lookupCol_mkFrameAux_not_mem ts ls 0 l hl] at h
    cases h

theorem zeroFill_lookup_some (df : List (Int × Col)) (n : Nat) (ls : List Int)
    (l : Int) (c : Col) (h : lookupCol df l = some c) :
    lookupCol (zeroFill df n ls) l = some c := by
  induction ls generalizing df with
  | nil => simpa [zeroFill] using h
  | cons k ls ih =>
    by_cases hk : (lookupCol df k).isSome = true
    · simpa [zeroFill, hk] using ih df h
    · have happ : lookupCol (df ++ [(k, List.replicate n 0)]) l = some c := by
        rw [lookupCol_append, h]
      simpa [zeroFill, hk] using ih _ happ

theorem zeroFill_lookup_mem (df : List (Int × Col)) (n : Nat) (ls : List Int)
    (l : Int) (hl : l ∈ ls) :
    lookupCol (zeroFill df n ls) l =
      some ((lookupCol df l).getD (List.replicate n 0)) := by
  induction ls generalizing df with
  | nil => cases hl
  | cons k ls ih =>
    by_cases hk : (lookupCol df k).isSome = true
    · rw [zeroFill, if_pos hk]
      by_cases h : l = k
      · subst h
        obtain ⟨c, hc⟩ := Option.isSome_iff_exists.mp hk
        rw [zeroFill_lookup_some df n ls l c hc, hc]
        rfl
      · have hl' : l ∈ ls := by
          rcases List.mem_cons.mp hl with h' | h'
          · exact absurd h' h
          · exact h'
        exact ih df hl'
    · rw [zeroFill, if_neg hk]
      have hnone : lookupCol df k = none := by
        cases hdf : lookupCol df k with
        | none => rfl
        | some c => rw [hdf] at hk; simp at hk
      by_cases h : l = k
      · subst h
        have happ : lookupCol (df ++ [(l, List.replicate n 0)]) l =
            some (List.replicate n 0) := by
          rw [lookupCol_append, hnone]
          simp [lookupCol]
        rw [zeroFill_lookup_some _ n ls l _ happ, hnone]
        rfl
      · have hl' : l ∈ ls := by
          rcases List.mem_cons.mp hl with h' | h'
          · exact absurd h' h
          · exact h'
        rw [ih _ hl', lookupCol_append]
        cases hdf : lookupCol df l with
        | none => simp [lookupCol, h]
        | some c => rfl

theorem zeroFill_nofill (df : List (Int × Col)) (n : Nat) (ls : List Int)
    (h : ∀ l ∈ ls, (lookupCol df l).isSome = true) :
    zeroFill df n ls = df := by
  induction ls with
  | nil => rfl
  | cons k ls ih =>
    have hk := h k (List.mem_cons_self k ls)
    rw [zeroFill, if_pos hk]
    exact ih (fun l hl => h l (List.mem_cons_of_mem k hl))

theorem reindexCols_keys (df : List (Int × Col)) (ls : List Int) :
    (reindexCols df ls).map Prod.fst = ls := by
  induction ls with
  | nil => rfl
  | cons k ls ih => simpa [reindexCols] using ih

theorem lookupCol_reindexCols (df : List (Int × Col)) (ls : List Int) (l : Int)
    (hl : l ∈ ls) :
    lookupCol (reindexCols df ls) l = some (lookupCol df l) := by
  induction ls with
  | nil => cases hl
  | cons k ls ih =>
    by_cases h : l = k
    · subst h
      simp [reindexCols, lookupCol]
    · have hl' : l ∈ ls := by
        rcases List.mem_cons.mp hl with h' | h'
        · exact absurd h' h
        · exact h'
      simpa [reindexCols, lookupCol, h] using ih hl'

theorem lookupCol_map_some (df : List (Int × Col)) (l : Int) :
    lookupCol (df.map (fun p => (p.1, some p.2))) l =
      (lookupCol df l).map some := by
  induction df with
  | nil => simp [lookupCol]
  | cons p rest ih =>
    obtain ⟨k, c⟩ := p
    by_cases h : l = k <;> simp [lookupCol, h, ih]

theorem reindexCols_self (df : List (Int × Col))
    (hnd : (df.map Prod.fst).Nodup) :
    reindexCols df (df.map Prod.fst) = df.map (fun p => (p.1, some p.2)) := by
  induction df with
  | nil => rfl
  | cons p rest ih =>
    obtain ⟨k, c⟩ := p
    simp only [List.map_cons, List.nodup_cons] at hnd
    obtain ⟨hk, hrest⟩ := hnd
    have h1 : lookupCol ((k, c) :: rest) k = some c := by simp [lookupCol]
    have hcongr : (rest.map Prod.fst).map
          (fun l => (l, lookupCol ((k, c) :: rest) l))
        = (rest.map Prod.fst).map (fun l => (l, lookupCol rest l)) := by
      apply List.map_congr_left
      intro l hl
      have hlk : l ≠ k := fun h => hk (h ▸ hl)
      simp [lookupCol, hlk]
    calc reindexCols ((k, c) :: rest) (((k, c) :: rest).map Prod.fst)
        = (k, lookupCol ((k, c) :: rest) k) ::
            (rest.map Prod.fst).map (fun l => (l, lookupCol ((k, c) :: rest) l)) := by
          rw [List.map_cons]
          rfl
      _ = (k, some c) :: (rest.map Prod.fst).map (fun l => (l, lookupCol rest l)) := by
          rw [h1, hcongr]
      _ = (k, some c) :: rest.map (fun p => (p.1, some p.2)) := by
          rw [← ih hrest]
          rfl
      _ = ((k, c) :: rest).map (fun p => (p.1, some p.2)) := by
          rw [List.map_cons]

/-! ### Lemmas about the canonical label list -/

theorem sortedUnique_sorted_le (v : List Int) :
    (sortedUnique v).Sorted (· ≤ ·) :=
  List.sorted_insertionSort _ _

theorem sortedUnique_nodup (v : List Int) : (sortedUnique v).Nodup :=
  (List.perm_insertionSort _ _).nodup_iff.mpr v.nodup_dedup

theorem sortedUnique_mem (v : List Int) (l : Int) :
    l ∈ sortedUnique v ↔ l ∈ v := by
  rw [sortedUnique, List.mem_insertionSort, List.mem_dedup]

theorem sortedUnique_sorted_lt (v : List Int) :
    (sortedUnique v).Sorted (· < ·) :=
  (sortedUnique_sorted_le v).lt_of_le (sortedUnique_nodup v)

theorem canonicalLabels_sorted_lt (v : List Int) :
    (canonicalLabels v).Sorted (· < ·) := by
  rw [canonicalLabels]
  cases h : sortedUnique v with
  | nil => simp [dropBgFirst]
  | cons a t =>
    have hs := sortedUnique_sorted_lt v
    rw [h] at hs
    by_cases ha : a = 0
    · have hd : dropBgFirst (a :: t) = t := by simp [dropBgFirst, ha]
      rw [hd]
      exact (List.sorted_cons.mp hs).2
    · have hd : dropBgFirst (a :: t) = a :: t := by simp [dropBgFirst, ha]
      rw [hd]
      exact hs

theorem canonicalLabels_nodup (v : List Int) : (canonicalLabels v).Nodup :=
  (canonicalLabels_sorted_lt v).nodup

theorem canonicalLabels_mem (v : List Int) (hv : ∀ x ∈ v, 0 ≤ x) (l : Int) :
    l ∈ canonicalLabels v ↔ l ∈ v ∧ 0 < l := by
  rw [canonicalLabels]
  cases h : sortedUnique v with
  | nil =>
    have : l ∉ v := fun hl => by
      have := (sortedUnique_mem v l).mpr hl
      rw [h] at this
      cases this
    simp [dropBgFirst, this]
  | cons a t =>
    have hmem : ∀ x, x ∈ a :: t ↔ x ∈ v := fun x => h ▸ sortedUnique_mem v x
    have hsorted := sortedUnique_sorted_le v
    rw [h] at hsorted
    have hnodup := sortedUnique_nodup v
    rw [h] at hnodup
    by_cases ha : a = 0
    · subst ha
      simp only [dropBgFirst, if_pos rfl]
      constructor
      · intro hl
        have hlv : l ∈ v := (hmem l).mp (List.mem_cons_of_mem _ hl)
        have hl0 : l ≠ 0 := fun h0 => (List.nodup_cons.mp hnodup).1 (h0 ▸ hl)
        exact ⟨hlv, lt_of_le_of_ne (hv l hlv) (Ne.symm hl0)⟩
      · rintro ⟨hlv, hlpos⟩
        rcases List.mem_cons.mp ((hmem l).mpr hlv) with h0 | ht
        · exact absurd h0 (ne_of_gt hlpos)
        · exact ht
    · simp only [dropBgFirst, if_neg ha]
      constructor
      · intro hl
        have hlv : l ∈ v := (hmem l).mp hl
        refine ⟨hlv, lt_of_le_of_ne (hv l hlv) ?_⟩
        intro h0
        subst h0
        rcases List.mem_cons.mp hl with h0 | ht
        · exact ha h0.symm
        · have hav : a ∈ v := (hmem a).mp (List.mem_cons_self a t)
          have h1 : a ≤ 0 := (List.sorted_cons.mp hsorted).1 0 ht
          have h2 : 0 ≤ a := hv a hav
          exact ha (le_antisymm h1 h2)
      · rintro ⟨hlv, _⟩
        exact (hmem l).mpr hlv

/-! ### Branch behaviour of the reconciliation pipeline -/

theorem reconcileOutput_eq (ts : List Col) (ncols : Nat)
    (extractedLabels origVoxels : List Int) :
    reconcileOutput ts ncols extractedLabels origVoxels =
      if ncols < (canonicalLabels origVoxels).length then
        reconcileStep (mkFrame ts (trimLabels (dropBgFirst extractedLabels) ncols))
          ts.length (canonicalLabels origVoxels)
      else
        (mkFrame ts (trimLabels (dropBgFirst extractedLabels) ncols)).map
          (fun p => (p.1, some p.2)) := rfl

theorem trimLabels_of_length (ls : List Int) (ncols : Nat)
    (h : ls.length = ncols) : trimLabels ls ncols = ls := by
  rw [trimLabels, if_neg]
  omega

theorem keys_map_some (df : List (Int × Col)) :
    (df.map (fun p => (p.1, some p.2))).map Prod.fst = df.map Prod.fst := by
  induction df with
  | nil => rfl
  | cons p rest ih => simp [ih]

theorem mkFrameAux_col_length (ts : List Col) (ls : List Int) (i : Nat) :
    ∀ p ∈ mkFrameAux ts ls i, p.2.length = ts.length := by
  induction ls generalizing i with
  | nil => intro p hp; cases hp
  | cons l ls ih =>
    intro p hp
    rcases List.mem_cons.mp hp with h | h
    · subst h; simp
    · exact ih (i + 1) p h

/-! ### Claim theorems -/

/-- C1: for an atlas whose canonical region set has size `K`, every table
emitted by `extract_timeseries` has exactly `K` data columns, however many
regions survive alignment and masking (the surviving labels are a
duplicate-free subset of the canonical set, one per extracted column). -/
theorem extract_fixed_width (ts : List Col) (ncols : Nat)
    (extractedLabels origVoxels : List Int)
    (hlen : (dropBgFirst extractedLabels).length = ncols)
    (hnd : (dropBgFirst extractedLabels).Nodup)
    (hsub : dropBgFirst extractedLabels ⊆ canonicalLabels origVoxels) :
    (reconcileOutput ts ncols extractedLabels origVoxels).length =
      (canonicalLabels origVoxels).length := by
  rw [reconcileOutput_eq, trimLabels_of_length _ _ hlen]
  have hle : ncols ≤ (canonicalLabels origVoxels).length := by
    rw [← hlen]
    exact (hnd.subperm hsub).length_le
  by_cases h : ncols < (canonicalLabels origVoxels).length
  · rw [if_pos h, reconcileStep]
    simp [reindexCols]
  · rw [if_neg h]
    rw [List.length_map, mkFrame, mkFrameAux_length, hlen]
    omega

/-- Witness for C1 at a concrete input: atlas `{1,2,3}`, two surviving
regions, the emitted table still has three columns. -/
theorem extract_fixed_width_witness :
    (dropBgFirst [1, 3]).length = 2 ∧
    (reconcileOutput [[10, 20], [30, 40]] 2 [1, 3] [0, 1, 2, 3]).length =
      (canonicalLabels [0, 1, 2, 3]).length :=
  ⟨by decide,
   extract_fixed_width [[10, 20], [30, 40]] 2 [1, 3] [0, 1, 2, 3]
     (by decide) (by decide) (by decide)⟩

/-- C4: the canonical region set is computed from the original, unaligned
atlas volume: it is strictly ascending (hence duplicate-free) and holds
exactly the distinct positive voxel values, the background label 0 excluded. -/
theorem canonical_labels_spec (v : List Int) (hv : ∀ x ∈ v, 0 ≤ x) :
    (canonicalLabels v).Sorted (· < ·) ∧
    ∀ l, l ∈ canonicalLabels v ↔ l ∈ v ∧ 0 < l :=
  ⟨canonicalLabels_sorted_lt v, canonicalLabels_mem v hv⟩

/-- Witness for C4 at a concrete atlas volume. -/
theorem canonical_labels_spec_witness :
    (∀ x ∈ [0, 2, 1, 2, 0, 5], (0:Int) ≤ x) ∧
    ((canonicalLabels [0, 2, 1, 2, 0, 5]).Sorted (· < ·) ∧
      ∀ l, l ∈ canonicalLabels [0, 2, 1, 2, 0, 5] ↔
        l ∈ [0, 2, 1, 2, 0, 5] ∧ 0 < l) :=
  ⟨by decide, canonical_labels_spec [0, 2, 1, 2, 0, 5] (by decide)⟩

/-- C9: reconciliation (zero-fill of missing canonical labels followed by
reindexing to canonical order) is idempotent: applied to a frame whose
columns are already exactly the canonical labels, in order, it returns the
frame unchanged (same columns, same order, same values). -/
theorem reconciliation_idempotent (df : List (Int × Col)) (n : Nat)
    (allLabels : List Int) (hnd : allLabels.Nodup)
    (hkeys : df.map Prod.fst = allLabels) :
    reconcileStep df n allLabels = df.map (fun p => (p.1, some p.2)) := by
  subst hkeys
  have hfill : zeroFill df n (df.map Prod.fst) = df :=
    zeroFill_nofill df n _ (fun l hl => (lookupCol_isSome_iff df l).mpr hl)
  rw [reconcileStep, hfill, reindexCols_self df hnd]

/-- Witness for C9 at a concrete, already-reconciled frame. -/
theorem reconciliation_idempotent_witness :
    ([1, 2] : List Int).Nodup ∧
    reconcileStep [(1, [5]), (2, [7])] 1 [1, 2] =
      [(1, some [5]), (2, some [7])] :=
  ⟨by decide, reconciliation_idempotent [(1, [5]), (2, [7])] 1 [1, 2]
    (by decide) (by decide)⟩

/-- C3: when the extraction yields signal for fewer regions than the
canonical set holds, the emitted table has one column per canonical label:
a surviving region's column is its extracted mean time series (the column
the extractor produced for it), a missing region's column is all zeros,
with one zero per time point. -/
theorem zero_fill_correct (ts : List Col) (ncols : Nat)
    (extractedLabels origVoxels : List Int)
    (hlen : (dropBgFirst extractedLabels).length = ncols)
    (hlt : ncols < (canonicalLabels origVoxels).length) :
    reconcileOutput ts ncols extractedLabels origVoxels =
      (canonicalLabels origVoxels).map (fun l =>
        (l, some (if l ∈ dropBgFirst extractedLabels then
            ts.map (fun r => r.getD (idxOf (dropBgFirst extractedLabels) l) 0)
          else List.replicate ts.length 0))) := by
  rw [reconcileOutput_eq, trimLabels_of_length _ _ hlen, if_pos hlt,
    reconcileStep, reindexCols]
  apply List.map_congr_left
  intro l hl
  rw [zeroFill_lookup_mem _ _ _ l hl]
  by_cases hc : l ∈ dropBgFirst extractedLabels
  · rw [lookupCol_mkFrame_mem ts _ l hc]
    simp [hc]
  · rw [mkFrame, lookupCol_mkFrameAux_not_mem ts _ 0 l hc]
    simp [hc]

/-- Witness for C3: canonical set `{1,2,3}`, extraction survives only
`{1,3}`; the table has columns `1,2,3`, column `2` all zeros, columns `1`
and `3` equal to the extracted series. -/
theorem zero_fill_correct_witness :
    (dropBgFirst [1, 3]).length = 2 ∧
    reconcileOutput [[10, 20], [30, 40]] 2 [1, 3] [0, 1, 2, 3] =
      [(1, some [10, 30]), (2, some [0, 0]), (3, some [20, 40])] := by
  constructor
  · decide
  · have h := zero_fill_correct [[10, 20], [30, 40]] 2 [1, 3] [0, 1, 2, 3]
      (by decide) (by decide)
    rw [h]
    decide

/-- C2 counterexample: on the branch where no zero-padding is needed the code
does not reindex; with canonical set `{1,2}` and extraction order `[2, 1]`
the emitted columns are `[2, 1]`, not sorted ascending — so the claim that
reordering is applied even when every canonical label is present (and that
emitted columns are always sorted) is false of the code. -/
theorem column_order_counterexample :
    csvHeader (reconcileOutput [[10, 20]] 2 [2, 1] [0, 1, 2]) = [2, 1] ∧
    ¬ (csvHeader (reconcileOutput [[10, 20]] 2 [2, 1] [0, 1, 2])).Sorted (· ≤ ·) := by
  constructor
  · decide
  · decide

/-- C2 (amended): the reindexing step is applied only on the zero-padding
branch; when the raw extraction already covers the canonical set the columns
are emitted in extraction order.  Consequently the emitted columns are sorted
ascending whenever the extractor reports its labels in ascending order. -/
theorem column_order_amended (ts : List Col) (ncols : Nat)
    (extractedLabels origVoxels : List Int)
    (hlen : (dropBgFirst extractedLabels).length = ncols) :
    csvHeader (reconcileOutput ts ncols extractedLabels origVoxels) =
      (if ncols < (canonicalLabels origVoxels).length then
        canonicalLabels origVoxels
      else dropBgFirst extractedLabels) ∧
    ((dropBgFirst extractedLabels).Sorted (· ≤ ·) →
      (csvHeader (reconcileOutput ts ncols extractedLabels origVoxels)).Sorted
        (· ≤ ·)) := by
  have hhead : csvHeader (reconcileOutput ts ncols extractedLabels origVoxels) =
      (if ncols < (canonicalLabels origVoxels).length then
        canonicalLabels origVoxels
      else dropBgFirst extractedLabels) := by
    rw [reconcileOutput_eq, trimLabels_of_length _ _ hlen]
    by_cases h : ncols < (canonicalLabels origVoxels).length
    · rw [if_pos h, if_pos h, csvHeader, reconcileStep, reindexCols_keys]
    · rw [if_neg h, if_neg h, csvHeader, keys_map_some, mkFrame, mkFrameAux_keys]
  refine ⟨hhead, fun hs => ?_⟩
  rw [hhead]
  by_cases h : ncols < (canonicalLabels origVoxels).length
  · rw [if_pos h]
    exact (canonicalLabels_sorted_lt origVoxels).imp (fun hab => le_of_lt hab)
  · rw [if_neg h]
    exact hs

/-- Witness for C2's amended claim on the padding branch. -/
theorem column_order_amended_witness :
    (dropBgFirst [1, 3]).length = 2 ∧
    (csvHeader (reconcileOutput [[10, 20], [30, 40]] 2 [1, 3] [0, 1, 2, 3]) =
      (if 2 < (canonicalLabels [0, 1, 2, 3]).length then
        canonicalLabels [0, 1, 2, 3]
      else dropBgFirst [1, 3]) ∧
    ((dropBgFirst [1, 3]).Sorted (· ≤ ·) →
      (csvHeader (reconcileOutput [[10, 20], [30, 40]] 2 [1, 3]
        [0, 1, 2, 3])).Sorted (· ≤ ·))) :=
  ⟨by decide, column_order_amended [[10, 20], [30, 40]] 2 [1, 3] [0, 1, 2, 3]
    (by decide)⟩

/-- C8: the emitted table has exactly one data row per time point of the
extracted series, in acquisition order: every column is present with one
value per time point, the table has `T` data rows of width equal to the
column count (no row-index column), and each surviving region's column is
its extracted series, row `t` holding the value of time point `t`. -/
theorem emitted_rows_spec (ts : List Col) (ncols : Nat)
    (extractedLabels origVoxels : List Int)
    (hlen : (dropBgFirst extractedLabels).length = ncols)
    (hsub : dropBgFirst extractedLabels ⊆ canonicalLabels origVoxels) :
    (∀ p ∈ reconcileOutput ts ncols extractedLabels origVoxels,
        ∃ c, p.2 = some c ∧ c.length = ts.length) ∧
    (csvDataRows (reconcileOutput ts ncols extractedLabels origVoxels)
        ts.length).length = ts.length ∧
    (∀ row ∈ csvDataRows (reconcileOutput ts ncols extractedLabels origVoxels)
        ts.length,
      row.length = (reconcileOutput ts ncols extractedLabels origVoxels).length) ∧
    (∀ l ∈ dropBgFirst extractedLabels,
      lookupCol (reconcileOutput ts ncols extractedLabels origVoxels) l =
        some (some (ts.map
          (fun r => r.getD (idxOf (dropBgFirst extractedLabels) l) 0)))) := by
  rw [reconcileOutput_eq, trimLabels_of_length _ _ hlen]
  refine ⟨?_, ?_, ?_, ?_⟩
  · intro p hp
    by_cases h : ncols < (canonicalLabels origVoxels).length
    · rw [if_pos h] at hp
      rw [reconcileStep, reindexCols] at hp
      obtain ⟨l, hl, hpl⟩ := List.mem_map.mp hp
      subst hpl
      rw [zeroFill_lookup_mem _ _ _ l hl]
      by_cases hc : l ∈ dropBgFirst extractedLabels
      · rw [lookupCol_mkFrame_mem ts _ l hc]
        exact ⟨_, rfl, by simp⟩
      · rw [mkFrame, lookupCol_mkFrameAux_not_mem ts _ 0 l hc]
        exact ⟨_, rfl, by simp⟩
    · rw [if_neg h] at hp
      obtain ⟨q, hq, hpq⟩ := List.mem_map.mp hp
      subst hpq
      exact ⟨q.2, rfl, mkFrameAux_col_length ts _ 0 q hq⟩
  · simp [csvDataRows]
  · intro row hrow
    obtain ⟨t, _, hrt⟩ := List.mem_map.mp hrow
    subst hrt
    simp
  · intro l hlc
    by_cases h : ncols < (canonicalLabels origVoxels).length
    · rw [if_pos h, reconcileStep,
        lookupCol_reindexCols _ _ l (hsub hlc),
        zeroFill_lookup_mem _ _ _ l (hsub hlc),
        lookupCol_mkFrame_mem ts _ l hlc]
      rfl
    · rw [if_neg h, lookupCol_map_some, lookupCol_mkFrame_mem ts _ l hlc]
      rfl

/-- Witness for C8: two time points, two surviving regions out of three;
the emitted table has two data rows and every column two entries. -/
theorem emitted_rows_spec_witness :
    (dropBgFirst [1, 3]).length = 2 ∧
    ((∀ p ∈ reconcileOutput [[10, 20], [30, 40]] 2 [1, 3] [0, 1, 2, 3],
        ∃ c, p.2 = some c ∧ c.length = [[(10:ℚ), 20], [30, 40]].length) ∧
    (csvDataRows (reconcileOutput [[10, 20], [30, 40]] 2 [1, 3] [0, 1, 2, 3])
        [[(10:ℚ), 20], [30, 40]].length).length = [[(10:ℚ), 20], [30, 40]].length ∧
    (∀ row ∈ csvDataRows (reconcileOutput [[10, 20], [30, 40]] 2 [1, 3]
        [0, 1, 2, 3]) [[(10:ℚ), 20], [30, 40]].length,
      row.length =
        (reconcileOutput [[10, 20], [30, 40]] 2 [1, 3] [0, 1, 2, 3]).length) ∧
    (∀ l ∈ dropBgFirst [1, 3],
      lookupCol (reconcileOutput [[10, 20], [30, 40]] 2 [1, 3] [0, 1, 2, 3]) l =
        some (some ([[(10:ℚ), 20], [30, 40]].map
          (fun r => r.getD (idxOf (dropBgFirst [1, 3]) l) 0))))) :=
  ⟨by decide, emitted_rows_spec [[10, 20], [30, 40]] 2 [1, 3] [0, 1, 2, 3]
    (by decide) (by decide)⟩

/-! ### File-system effect model

`align_atlas_to_target`, the failure handling of `extract_timeseries` and
the driver loop of `batch_extract.py` are embedded as explicit state passing
over a small file-system state that records the set of existing paths and
the per-call traces of written and removed paths.  External behaviour (the
registration tool's exit status, whether `masker.fit_transform` raises) is
passed in as parameters; the fresh paths handed out by `tempfile.mkstemp`
are parameters constrained to be fresh in the theorems. -/

/-- File-system state: existing paths, plus traces of every path removed and
every path created/written during the modelled call. -/
structure FS where
  files : List String
  removed : List String
  written : List String
deriving DecidableEq

/-- Create or overwrite the file at `p` (`tempfile.mkstemp`, `nib.save`,
the registration tool's output, `df.to_csv`). -/
def FS.write (fs : FS) (p : String) : FS :=
  ⟨if p ∈ fs.files then fs.files else p :: fs.files, fs.removed, p :: fs.written⟩

/-- Remove the file at `p` (`os.remove(p)`). -/
def FS.remove (fs : FS) (p : String) : FS :=
  ⟨fs.files.erase p, p :: fs.removed, fs.written⟩

/-- The two kinds of fatal condition the Python code can raise: an ordinary
`Exception`, or `SystemExit` as raised by `sys.exit(1)`.  `SystemExit` is not
a subclass of `Exception` and is not caught by `except Exception`. -/
inductive PyErr
  | exception
  | systemExit
deriving DecidableEq

/-- Model of `align_atlas_to_target(atlas_path, target_path, transform_path)` with
`output_path=None`, as called from `extract_timeseries` (line 130):

* `tmpOut` is the fresh path `tempfile.mkstemp` returns for the aligned
  atlas (lines 30–35); `mkstemp` creates the file.
* With a transform: if the target is 4-D a fresh reference volume `refTmp`
  is created and saved (lines 52–58); the registration tool is run, writing
  `tmpOut` on exit status 0; on a non-zero status the reference volume is
  cleaned up and the call exits via `sys.exit(1)` (lines 72–86).
* Without a transform: the atlas is resampled in memory and saved to
  `tmpOut` (lines 88–108). -/
def align_atlas_to_target (fs : FS) (atlasPath targetPath : String)
    (transformPath : Option String) (tmpOut refTmp : String)
    (targetIs4D : Bool) (antsExit : Int) : Except PyErr String × FS :=
  let fs1 := fs.write tmpOut
  match transformPath with
  | some _ =>
    let refImage := if targetIs4D then refTmp else targetPath
    let fs2 := if targetIs4D then fs1.write refTmp else fs1
    if antsExit = 0 then
      let fs3 := fs2.write tmpOut
      let fs4 := if targetIs4D = true ∧ refImage ∈ fs3.files then
          fs3.remove refImage
        else fs3
      (Except.ok tmpOut, fs4)
    else
      let fs4 := if targetIs4D = true ∧ refImage ∈ fs2.files then
          fs2.remove refImage
        else fs2
      (Except.error PyErr.systemExit, fs4)
  | none =>
    (Except.ok tmpOut, fs1.write tmpOut)

/-- The effect skeleton of `extract_timeseries(input_4d, atlas_3d,
output_csv, mask_img, transform_path)` (lines 113–206): align the atlas
(a `SystemExit` raised there propagates); if `masker.fit_transform` raises,
remove the aligned atlas (when it exists and differs from the input atlas)
and exit via `sys.exit(1)` (lines 148–155); otherwise write the output table
and remove the aligned atlas under the same guard (lines 197–204). -/
def extract_timeseries (fs : FS) (input4d atlas3d outputCsv : String)
    (transformPath : Option String) (tmpOut refTmp : String)
    (targetIs4D : Bool) (antsExit : Int) (maskerOk : Bool) :
    Except PyErr Unit × FS :=
  match align_atlas_to_target fs atlas3d input4d transformPath tmpOut refTmp
      targetIs4D antsExit with
  | (Except.error e, fs1) => (Except.error e, fs1)
  | (Except.ok alignedPath, fs1) =>
    if maskerOk then
      let fs2 := fs1.write outputCsv
      let fs3 := if alignedPath ∈ fs2.files ∧ alignedPath ≠ atlas3d then
          fs2.remove alignedPath
        else fs2
      (Except.ok (), fs3)
    else
      let fs2 := if alignedPath ∈ fs1.files ∧ alignedPath ≠ atlas3d then
          fs1.remove alignedPath
        else fs1
      (Except.error PyErr.systemExit, fs2)

/-- Result of a batch run: successes, counted errors, and whether the loop
was aborted by an uncaught exception escaping `except Exception`. -/
structure BatchResult where
  succ : Nat
  err : Nat
  aborted : Bool
deriving DecidableEq

/-- The driver loop of `batch_process` (lines 130–173 of
`batch_extract.py`), one entry per discovered input: whether its output file
already exists (skip-if-exists, line 145) and the outcome of
`extract_timeseries` for it.  `except Exception` catches only
`PyErr.exception`; a `SystemExit` escapes the loop and aborts the batch. -/
def batch_process : List (Bool × Except PyErr Unit) → BatchResult
  | [] => ⟨0, 0, false⟩
  | (outputExists, res) :: rest =>
    if outputExists then batch_process rest
    else
      match res with
      | Except.ok _ =>
        let r := batch_process rest
        ⟨r.succ + 1, r.err, r.aborted⟩
      | Except.error PyErr.exception =>
        let r := batch_process rest
        ⟨r.succ, r.err + 1, r.aborted⟩
      | Except.error PyErr.systemExit => ⟨0, 0, true⟩

/-! ### Lemmas about the file-system model -/

theorem FS.write_files (fs : FS) (p : String) :
    (fs.write p).files = if p ∈ fs.files then fs.files else p :: fs.files := rfl

theorem FS.write_removed (fs : FS) (p : String) :
    (fs.write p).removed = fs.removed := rfl

theorem FS.write_written (fs : FS) (p : String) :
    (fs.write p).written = p :: fs.written := rfl

theorem FS.remove_files (fs : FS) (p : String) :
    (fs.remove p).files = fs.files.erase p := rfl

theorem FS.remove_removed (fs : FS) (p : String) :
    (fs.remove p).removed = p :: fs.removed := rfl

theorem FS.remove_written (fs : FS) (p : String) :
    (fs.remove p).written = fs.written := rfl

theorem FS.mem_write_iff (fs : FS) (p q : String) :
    q ∈ (fs.write p).files ↔ q = p ∨ q ∈ fs.files := by
  by_cases h : p ∈ fs.files
  · simp only [FS.write, if_pos h]
    constructor
    · exact Or.inr
    · rintro (rfl | hq)
      · exact h
      · exact hq
  · simp [FS.write, if_neg h]

theorem FS.mem_write_self (fs : FS) (p : String) : p ∈ (fs.write p).files :=
  (FS.mem_write_iff fs p p).mpr (Or.inl rfl)

theorem FS.mem_write_of_mem (fs : FS) (p q : String) (h : q ∈ fs.files) :
    q ∈ (fs.write p).files :=
  (FS.mem_write_iff fs p q).mpr (Or.inr h)

theorem FS.not_mem_write (fs : FS) (p q : String) (h1 : q ≠ p)
    (h2 : q ∉ fs.files) : q ∉ (fs.write p).files := by
  rw [FS.mem_write_iff]
  rintro (rfl | hq)
  · exact h1 rfl
  · exact h2 hq

theorem FS.mem_remove_of_ne (fs : FS) (p q : String) (h1 : q ≠ p)
    (h2 : q ∈ fs.files) : q ∈ (fs.remove p).files :=
  (List.mem_erase_of_ne h1).mpr h2

theorem FS.not_mem_remove (fs : FS) (p q : String) (h : q ∉ fs.files) :
    q ∉ (fs.remove p).files :=
  fun hq => h (List.mem_of_mem_erase hq)

/-! Shapes of the modelled calls on each control path. -/

theorem align_fail_3d (fs : FS) (atlas target tp tmpOut refTmp : String)
    (antsExit : Int) (hexit : antsExit ≠ 0) :
    align_atlas_to_target fs atlas target (some tp) tmpOut refTmp false antsExit =
      (Except.error PyErr.systemExit, fs.write tmpOut) := by
  simp [align_atlas_to_target, hexit]

theorem align_fail_4d (fs : FS) (atlas target tp tmpOut refTmp : String)
    (antsExit : Int) (hexit : antsExit ≠ 0) :
    align_atlas_to_target fs atlas target (some tp) tmpOut refTmp true antsExit =
      (Except.error PyErr.systemExit,
        ((fs.write tmpOut).write refTmp).remove refTmp) := by
  simp [align_atlas_to_target, hexit, FS.mem_write_self]

theorem align_ok_3d (fs : FS) (atlas target tp tmpOut refTmp : String) :
    align_atlas_to_target fs atlas target (some tp) tmpOut refTmp false 0 =
      (Except.ok tmpOut, (fs.write tmpOut).write tmpOut) := by
  simp [align_atlas_to_target]

theorem align_ok_4d (fs : FS) (atlas target tp tmpOut refTmp : String) :
    align_atlas_to_target fs atlas target (some tp) tmpOut refTmp true 0 =
      (Except.ok tmpOut,
        ((((fs.write tmpOut).write refTmp).write tmpOut).remove refTmp)) := by
  simp [align_atlas_to_target, FS.mem_write_of_mem, FS.mem_write_self]

theorem align_resample (fs : FS) (atlas target tmpOut refTmp : String)
    (targetIs4D : Bool) (antsExit : Int) :
    align_atlas_to_target fs atlas target none tmpOut refTmp targetIs4D antsExit =
      (Except.ok tmpOut, (fs.write tmpOut).write tmpOut) := by
  simp [align_atlas_to_target]

/-- C6: with a transform supplied and the registration tool exiting with a
non-zero status, the call fails fatally with `SystemExit` (no fallback to the
resample-based path is taken), no output table is written, and the temporary
3-D reference volume created for a 4-D target is removed before aborting. -/
theorem ants_failure_fatal (fs : FS) (input4d atlas3d outputCsv tp : String)
    (tmpOut refTmp : String) (targetIs4D : Bool) (antsExit : Int)
    (maskerOk : Bool) (hexit : antsExit ≠ 0)
    (hcsv1 : outputCsv ∉ fs.files) (hcsv2 : outputCsv ≠ tmpOut)
    (hcsv3 : outputCsv ≠ refTmp) (hcsv4 : outputCsv ∉ fs.written)
    (href1 : refTmp ∉ fs.files) (href2 : refTmp ≠ tmpOut) :
    (extract_timeseries fs input4d atlas3d outputCsv (some tp) tmpOut refTmp
        targetIs4D antsExit maskerOk).1 = Except.error PyErr.systemExit ∧
    outputCsv ∉ (extract_timeseries fs input4d atlas3d outputCsv (some tp)
        tmpOut refTmp targetIs4D antsExit maskerOk).2.files ∧
    outputCsv ∉ (extract_timeseries fs input4d atlas3d outputCsv (some tp)
        tmpOut refTmp targetIs4D antsExit maskerOk).2.written ∧
    (targetIs4D = true → refTmp ∉ (extract_timeseries fs input4d atlas3d
        outputCsv (some tp) tmpOut refTmp targetIs4D antsExit maskerOk).2.files) := by
  cases targetIs4D with
  | false =>
    have hshape := align_fail_3d fs atlas3d input4d tp tmpOut refTmp antsExit hexit
    simp only [extract_timeseries, hshape]
    refine ⟨trivial, ?_, ?_, ?_⟩
    · exact FS.not_mem_write fs tmpOut outputCsv hcsv2 hcsv1
    · rw [FS.write_written]
      intro h
      rcases List.mem_cons.mp h with h | h
      · exact hcsv2 h
      · exact hcsv4 h
    · intro h
      cases h
  | true =>
    have hshape := align_fail_4d fs atlas3d input4d tp tmpOut refTmp antsExit hexit
    simp only [extract_timeseries, hshape]
    refine ⟨trivial, ?_, ?_, ?_⟩
    · apply FS.not_mem_remove
      exact FS.not_mem_write _ refTmp outputCsv hcsv3
        (FS.not_mem_write fs tmpOut outputCsv hcsv2 hcsv1)
    · rw [FS.remove_written, FS.write_written, FS.write_written]
      intro h
      rcases List.mem_cons.mp h with h | h
      · exact hcsv3 h
      · rcases List.mem_cons.mp h with h | h
        · exact hcsv2 h
        · exact hcsv4 h
    · intro _
      rw [FS.remove_files, FS.write_files]
      rw [if_neg (FS.not_mem_write fs tmpOut refTmp href2 href1)]
      rw [List.erase_cons_head]
      exact FS.not_mem_write fs tmpOut refTmp href2 href1

theorem FS.count_write_self (fs : FS) (p : String) :
    ((fs.write p).files).count p = max 1 (fs.files.count p) := by
  by_cases h : p ∈ fs.files
  · rw [FS.write_files, if_pos h]
    have := List.count_pos_iff.mpr h
    omega
  · rw [FS.write_files, if_neg h, List.count_cons_self,
      List.count_eq_zero.mpr h]
    omega

theorem FS.count_write_ne (fs : FS) (p q : String) (h : p ≠ q) :
    ((fs.write q).files).count p = fs.files.count p := by
  by_cases hq : q ∈ fs.files
  · rw [FS.write_files, if_pos hq]
  · rw [FS.write_files, if_neg hq, List.count_cons_of_ne h]

theorem FS.count_remove_ne (fs : FS) (p q : String) (h : p ≠ q) :
    ((fs.remove q).files).count p = fs.files.count p :=
  List.count_erase_of_ne h fs.files

theorem FS.not_mem_remove_self (fs : FS) (p : String)
    (h : fs.files.count p ≤ 1) : p ∉ (fs.remove p).files := by
  intro hmem
  have h1 : 0 < ((fs.remove p).files).count p := List.count_pos_iff.mpr hmem
  rw [FS.remove_files] at h1
  rw [List.count_erase_self] at h1
  omega

theorem FS.mem_removed_remove (fs : FS) (p : String) :
    p ∈ (fs.remove p).removed := by
  rw [FS.remove_removed]
  exact List.mem_cons_self p fs.removed

/-- Witness for C6 at a concrete call: 4-D target, transform supplied,
registration tool exits with status 1. -/
theorem ants_failure_fatal_witness :
    ((1:Int) ≠ 0 ∧
      "o.csv" ∉ (⟨["f.nii", "a.nii"], [], []⟩ : FS).files) ∧
    ((extract_timeseries ⟨["f.nii", "a.nii"], [], []⟩ "f.nii" "a.nii" "o.csv"
        (some "w.h5") "tmpA.nii" "tmpR.nii" true 1 true).1 =
        Except.error PyErr.systemExit ∧
      "o.csv" ∉ (extract_timeseries ⟨["f.nii", "a.nii"], [], []⟩ "f.nii"
        "a.nii" "o.csv" (some "w.h5") "tmpA.nii" "tmpR.nii" true 1 true).2.files ∧
      "o.csv" ∉ (extract_timeseries ⟨["f.nii", "a.nii"], [], []⟩ "f.nii"
        "a.nii" "o.csv" (some "w.h5") "tmpA.nii" "tmpR.nii" true 1 true).2.written ∧
      (true = true → "tmpR.nii" ∉ (extract_timeseries ⟨["f.nii", "a.nii"], [], []⟩
        "f.nii" "a.nii" "o.csv" (some "w.h5") "tmpA.nii" "tmpR.nii" true 1
        true).2.files)) :=
  ⟨⟨by decide, by decide⟩,
   ants_failure_fatal ⟨["f.nii", "a.nii"], [], []⟩ "f.nii" "a.nii" "o.csv"
     "w.h5" "tmpA.nii" "tmpR.nii" true 1 true (by decide) (by decide)
     (by decide) (by decide) (by decide) (by decide) (by decide)⟩

/-- C7 counterexample: when the registration tool fails, the temporary
aligned-atlas file created by `tempfile.mkstemp` is left on disk — on this
failure path the cleanup is not performed, so cleanup is not unconditional. -/
theorem temp_atlas_leak_counterexample :
    (extract_timeseries ⟨["f.nii", "a.nii"], [], []⟩ "f.nii" "a.nii" "o.csv"
        (some "w.h5") "tmpA.nii" "tmpR.nii" true 1 true).1 =
      Except.error PyErr.systemExit ∧
    "tmpA.nii" ∈ (extract_timeseries ⟨["f.nii", "a.nii"], [], []⟩ "f.nii"
        "a.nii" "o.csv" (some "w.h5") "tmpA.nii" "tmpR.nii" true 1
        true).2.files ∧
    "tmpA.nii" ∉ (extract_timeseries ⟨["f.nii", "a.nii"], [], []⟩ "f.nii"
        "a.nii" "o.csv" (some "w.h5") "tmpA.nii" "tmpR.nii" true 1
        true).2.removed := by
  refine ⟨by rfl, by decide, by decide⟩

theorem extract_ok_removes_tmp (fs g : FS) (input4d atlas3d outputCsv : String)
    (transformPath : Option String) (tmpOut refTmp : String)
    (targetIs4D : Bool) (antsExit : Int) (maskerOk : Bool)
    (hshape : align_atlas_to_target fs atlas3d input4d transformPath tmpOut
        refTmp targetIs4D antsExit = (Except.ok tmpOut, g))
    (hmem : tmpOut ∈ g.files) (hcount : g.files.count tmpOut ≤ 1)
    (hne : tmpOut ≠ atlas3d) (hcsv : tmpOut ≠ outputCsv) :
    tmpOut ∉ (extract_timeseries fs input4d atlas3d outputCsv transformPath
        tmpOut refTmp targetIs4D antsExit maskerOk).2.files ∧
    tmpOut ∈ (extract_timeseries fs input4d atlas3d outputCsv transformPath
        tmpOut refTmp targetIs4D antsExit maskerOk).2.removed := by
  cases maskerOk with
  | false =>
    simp only [extract_timeseries, hshape, Bool.false_eq_true, if_false]
    rw [if_pos ⟨hmem, hne⟩]
    exact ⟨FS.not_mem_remove_self g tmpOut hcount, FS.mem_removed_remove g tmpOut⟩
  | true =>
    simp only [extract_timeseries, hshape, if_true]
    rw [if_pos ⟨FS.mem_write_of_mem g outputCsv tmpOut hmem, hne⟩]
    refine ⟨?_, FS.mem_removed_remove _ tmpOut⟩
    apply FS.not_mem_remove_self
    rw [FS.count_write_ne g tmpOut outputCsv hcsv]
    exact hcount

/-- C7 (amended): the temporary aligned-atlas file is removed on the success
path and on the extraction-failure path — every path on which alignment
succeeded — whether or not a transform was used; it is not removed when the
registration tool itself fails (see the counterexample). -/
theorem temp_atlas_cleanup_amended (fs : FS) (input4d atlas3d outputCsv : String)
    (transformPath : Option String) (tmpOut refTmp : String)
    (targetIs4D : Bool) (antsExit : Int) (maskerOk : Bool)
    (halign : transformPath = none ∨ antsExit = 0)
    (h1 : tmpOut ∉ fs.files) (h2 : tmpOut ≠ atlas3d)
    (h3 : tmpOut ≠ outputCsv) (h4 : refTmp ≠ tmpOut) :
    tmpOut ∉ (extract_timeseries fs input4d atlas3d outputCsv transformPath
        tmpOut refTmp targetIs4D antsExit maskerOk).2.files ∧
    tmpOut ∈ (extract_timeseries fs input4d atlas3d outputCsv transformPath
        tmpOut refTmp targetIs4D antsExit maskerOk).2.removed := by
  have hc0 : fs.files.count tmpOut = 0 := List.count_eq_zero.mpr h1
  have hmem2 : tmpOut ∈ ((fs.write tmpOut).write tmpOut).files :=
    FS.mem_write_self _ _
  have hcount2 : (((fs.write tmpOut).write tmpOut).files).count tmpOut ≤ 1 := by
    rw [FS.count_write_self, FS.count_write_self, hc0]
    omega
  rcases halign with hnone | hzero
  · subst hnone
    exact extract_ok_removes_tmp fs _ input4d atlas3d outputCsv none tmpOut
      refTmp targetIs4D antsExit maskerOk
      (align_resample fs atlas3d input4d tmpOut refTmp targetIs4D antsExit)
      hmem2 hcount2 h2 h3
  · subst hzero
    cases transformPath with
    | none =>
      exact extract_ok_removes_tmp fs _ input4d atlas3d outputCsv none tmpOut
        refTmp targetIs4D 0 maskerOk
        (align_resample fs atlas3d input4d tmpOut refTmp targetIs4D 0)
        hmem2 hcount2 h2 h3
    | some tp =>
      cases targetIs4D with
      | false =>
        exact extract_ok_removes_tmp fs _ input4d atlas3d outputCsv (some tp)
          tmpOut refTmp false 0 maskerOk
          (align_ok_3d fs atlas3d input4d tp tmpOut refTmp)
          hmem2 hcount2 h2 h3
      | true =>
        have hmem4 : tmpOut ∈
            ((((fs.write tmpOut).write refTmp).write tmpOut).remove refTmp).files :=
          FS.mem_remove_of_ne _ refTmp tmpOut (Ne.symm h4) (FS.mem_write_self _ _)
        have hcount4 :
            (((((fs.write tmpOut).write refTmp).write tmpOut).remove
              refTmp).files).count tmpOut ≤ 1 := by
          rw [FS.count_remove_ne _ tmpOut refTmp (Ne.symm h4),
            FS.count_write_self, FS.count_write_ne _ tmpOut refTmp (Ne.symm h4),
            FS.count_write_self, hc0]
          omega
        exact extract_ok_removes_tmp fs _ input4d atlas3d outputCsv (some tp)
          tmpOut refTmp true 0 maskerOk
          (align_ok_4d fs atlas3d input4d tp tmpOut refTmp)
          hmem4 hcount4 h2 h3

/-- Witness for C7's amended claim: resample path (no transform), extraction
succeeds; the temporary aligned atlas is removed. -/
theorem temp_atlas_cleanup_amended_witness :
    ("tmpA.nii" ∉ (⟨["f.nii", "a.nii"], [], []⟩ : FS).files ∧
      "tmpA.nii" ≠ "a.nii") ∧
    ("tmpA.nii" ∉ (extract_timeseries ⟨["f.nii", "a.nii"], [], []⟩ "f.nii"
        "a.nii" "o.csv" none "tmpA.nii" "tmpR.nii" true 0 true).2.files ∧
      "tmpA.nii" ∈ (extract_timeseries ⟨["f.nii", "a.nii"], [], []⟩ "f.nii"
        "a.nii" "o.csv" none "tmpA.nii" "tmpR.nii" true 0 true).2.removed) :=
  ⟨⟨by decide, by decide⟩,
   temp_atlas_cleanup_amended ⟨["f.nii", "a.nii"], [], []⟩ "f.nii" "a.nii"
     "o.csv" none "tmpA.nii" "tmpR.nii" true 0 true (Or.inl rfl) (by decide)
     (by decide) (by decide) (by decide)⟩

/-- Path `q` is untouched by the modelled call so far: it exists, was never
removed and never written. -/
def Preserved (q : String) (fs : FS) : Prop :=
  q ∈ fs.files ∧ q ∉ fs.removed ∧ q ∉ fs.written

theorem Preserved.write {q : String} {fs : FS} (h : Preserved q fs)
    {p : String} (hne : q ≠ p) : Preserved q (fs.write p) := by
  refine ⟨FS.mem_write_of_mem fs p q h.1, ?_, ?_⟩
  · rw [FS.write_removed]
    exact h.2.1
  · rw [FS.write_written]
    intro hm
    rcases List.mem_cons.mp hm with e | hm
    · exact hne e
    · exact h.2.2 hm

theorem Preserved.remove {q : String} {fs : FS} (h : Preserved q fs)
    {p : String} (hne : q ≠ p) : Preserved q (fs.remove p) := by
  refine ⟨FS.mem_remove_of_ne fs p q hne h.1, ?_, ?_⟩
  · rw [FS.remove_removed]
    intro hm
    rcases List.mem_cons.mp hm with e | hm
    · exact hne e
    · exact h.2.1 hm
  · rw [FS.remove_written]
    exact h.2.2

theorem align_preserves (fs : FS) (atlasPath targetPath : String)
    (transformPath : Option String) (tmpOut refTmp : String)
    (targetIs4D : Bool) (antsExit : Int) (q : String) (h : Preserved q fs)
    (hq1 : q ≠ tmpOut) (hq2 : q ≠ refTmp) :
    Preserved q (align_atlas_to_target fs atlasPath targetPath transformPath
      tmpOut refTmp targetIs4D antsExit).2 := by
  cases transformPath with
  | none =>
    rw [align_resample]
    exact (h.write hq1).write hq1
  | some tp =>
    cases targetIs4D with
    | false =>
      by_cases he : antsExit = 0
      · subst he
        rw [align_ok_3d]
        exact (h.write hq1).write hq1
      · rw [align_fail_3d fs atlasPath targetPath tp tmpOut refTmp antsExit he]
        exact h.write hq1
    | true =>
      by_cases he : antsExit = 0
      · subst he
        rw [align_ok_4d]
        exact (((h.write hq1).write hq2).write hq1).remove hq2
      · rw [align_fail_4d fs atlasPath targetPath tp tmpOut refTmp antsExit he]
        exact ((h.write hq1).write hq2).remove hq2

theorem align_ok_eq (fs : FS) (atlasPath targetPath : String)
    (transformPath : Option String) (tmpOut refTmp : String)
    (targetIs4D : Bool) (antsExit : Int) (a : String) (fs1 : FS)
    (h : align_atlas_to_target fs atlasPath targetPath transformPath tmpOut
      refTmp targetIs4D antsExit = (Except.ok a, fs1)) : a = tmpOut := by
  cases transformPath with
  | none =>
    rw [align_resample] at h
    exact (Except.ok.injEq _ _ ▸ congrArg Prod.fst h).symm
  | some tp =>
    cases targetIs4D with
    | false =>
      by_cases he : antsExit = 0
      · subst he
        rw [align_ok_3d] at h
        exact (Except.ok.injEq _ _ ▸ congrArg Prod.fst h).symm
      · rw [align_fail_3d fs atlasPath targetPath tp tmpOut refTmp antsExit he] at h
        cases congrArg Prod.fst h
    | true =>
      by_cases he : antsExit = 0
      · subst he
        rw [align_ok_4d] at h
        exact (Except.ok.injEq _ _ ▸ congrArg Prod.fst h).symm
      · rw [align_fail_4d fs atlasPath targetPath tp tmpOut refTmp antsExit he] at h
        cases congrArg Prod.fst h

theorem extract_preserves (fs : FS) (input4d atlas3d outputCsv : String)
    (transformPath : Option String) (tmpOut refTmp : String)
    (targetIs4D : Bool) (antsExit : Int) (maskerOk : Bool) (q : String)
    (h : Preserved q fs) (hq1 : q ≠ tmpOut) (hq2 : q ≠ refTmp)
    (hq3 : q ≠ outputCsv) :
    Preserved q (extract_timeseries fs input4d atlas3d outputCsv transformPath
      tmpOut refTmp targetIs4D antsExit maskerOk).2 := by
  have halign := align_preserves fs atlas3d input4d transformPath tmpOut refTmp
    targetIs4D antsExit q h hq1 hq2
  cases hres : align_atlas_to_target fs atlas3d input4d transformPath tmpOut
      refTmp targetIs4D antsExit with
  | mk res fs1 =>
    rw [hres] at halign
    cases res with
    | error e =>
      simp only [extract_timeseries, hres]
      exact halign
    | ok aligned =>
      have ha : aligned = tmpOut := align_ok_eq fs atlas3d input4d transformPath
        tmpOut refTmp targetIs4D antsExit aligned fs1 hres
      subst ha
      simp only [extract_timeseries, hres]
      cases maskerOk with
      | true =>
        simp only [if_true]
        by_cases hg : aligned ∈ (fs1.write outputCsv).files ∧ aligned ≠ atlas3d
        · rw [if_pos hg]
          exact (halign.write hq3).remove hq1
        · rw [if_neg hg]
          exact halign.write hq3
      | false =>
        simp only [Bool.false_eq_true, if_false]
        by_cases hg : aligned ∈ fs1.files ∧ aligned ≠ atlas3d
        · rw [if_pos hg]
          exact halign.remove hq1
        · rw [if_neg hg]
          exact halign

/-- C10: `extract_timeseries` never deletes or overwrites its input files:
the aligned atlas goes to a fresh temporary path (so it differs from the
input atlas path), and on every path — any transform, target dimensionality,
tool exit status and extraction outcome — the original atlas and the input
functional volume still exist, were never removed and never written. -/
theorem inputs_preserved (fs : FS) (input4d atlas3d outputCsv : String)
    (transformPath : Option String) (tmpOut refTmp : String)
    (targetIs4D : Bool) (antsExit : Int) (maskerOk : Bool)
    (hatlas : atlas3d ∈ fs.files) (hinput : input4d ∈ fs.files)
    (htmp : tmpOut ∉ fs.files) (href : refTmp ∉ fs.files)
    (hcsv1 : outputCsv ≠ atlas3d) (hcsv2 : outputCsv ≠ input4d)
    (hrem0 : fs.removed = []) (hwr0 : fs.written = []) :
    tmpOut ≠ atlas3d ∧
    Preserved atlas3d (extract_timeseries fs input4d atlas3d outputCsv
      transformPath tmpOut refTmp targetIs4D antsExit maskerOk).2 ∧
    Preserved input4d (extract_timeseries fs input4d atlas3d outputCsv
      transformPath tmpOut refTmp targetIs4D antsExit maskerOk).2 := by
  have hta : atlas3d ≠ tmpOut := fun e => htmp (e ▸ hatlas)
  have hra : atlas3d ≠ refTmp := fun e => href (e ▸ hatlas)
  have hti : input4d ≠ tmpOut := fun e => htmp (e ▸ hinput)
  have hri : input4d ≠ refTmp := fun e => href (e ▸ hinput)
  refine ⟨fun e => hta e.symm, ?_, ?_⟩
  · exact extract_preserves fs input4d atlas3d outputCsv transformPath tmpOut
      refTmp targetIs4D antsExit maskerOk atlas3d
      ⟨hatlas, by rw [hrem0]; exact List.not_mem_nil _,
        by rw [hwr0]; exact List.not_mem_nil _⟩
      hta hra (Ne.symm hcsv1)
  · exact extract_preserves fs input4d atlas3d outputCsv transformPath tmpOut
      refTmp targetIs4D antsExit maskerOk input4d
      ⟨hinput, by rw [hrem0]; exact List.not_mem_nil _,
        by rw [hwr0]; exact List.not_mem_nil _⟩
      hti hri (Ne.symm hcsv2)

/-- Witness for C10: transform-based 4-D path with a failing tool; atlas and
functional volume survive untouched. -/
theorem inputs_preserved_witness :
    ("a.nii" ∈ (⟨["f.nii", "a.nii"], [], []⟩ : FS).files ∧
      "tmpA.nii" ∉ (⟨["f.nii", "a.nii"], [], []⟩ : FS).files) ∧
    ("tmpA.nii" ≠ "a.nii" ∧
      Preserved "a.nii" (extract_timeseries ⟨["f.nii", "a.nii"], [], []⟩
        "f.nii" "a.nii" "o.csv" (some "w.h5") "tmpA.nii" "tmpR.nii" true 1
        true).2 ∧
      Preserved "f.nii" (extract_timeseries ⟨["f.nii", "a.nii"], [], []⟩
        "f.nii" "a.nii" "o.csv" (some "w.h5") "tmpA.nii" "tmpR.nii" true 1
        true).2) :=
  ⟨⟨by decide, by decide⟩,
   inputs_preserved ⟨["f.nii", "a.nii"], [], []⟩ "f.nii" "a.nii" "o.csv"
     (some "w.h5") "tmpA.nii" "tmpR.nii" true 1 true (by decide) (by decide)
     (by decide) (by decide) (by decide) (by decide) rfl rfl⟩

/-- C5 is a code bug: the designed failure paths of `extract_timeseries`
signal via `sys.exit(1)`, i.e. `SystemExit`, which the driver's
`except Exception` does not catch.  At a batch whose first input fails that
way, the whole batch aborts with nothing counted and the remaining input
never processed; an ordinary `Exception` by contrast is caught, counted and
the batch continues. -/
theorem batch_abort_on_extract_failure :
    (extract_timeseries ⟨["f.nii", "a.nii"], [], []⟩ "f.nii" "a.nii" "o.csv"
        (some "w.h5") "tmpA.nii" "tmpR.nii" true 1 true).1 =
      Except.error PyErr.systemExit ∧
    batch_process [(false, Except.error PyErr.systemExit),
        (false, Except.ok ())] = ⟨0, 0, true⟩ ∧
    batch_process [(false, Except.error PyErr.exception),
        (false, Except.ok ())] = ⟨1, 1, false⟩ := by
  refine ⟨by rfl, by decide, by decide⟩

end NiftiTS
